import Mathlib

/-!
Verification of the wemoov-hrm display core against its specification.

The JavaScript sources are shallowly embedded:
* `static/js/ui/shared.js` — layout table (`layoutForCount`), responsive text
  scaling (`applyResponsiveTextScale`), label fitting (`fitNick`), `pctFrom`;
* `static/js/views/summary.js` — the summary-snapshot polling loop
  (`loadSummaryWithPolling`), modelled as a function of the list of server
  responses (responses are assumed to arrive instantly, so logical time
  advances only through the explicit `waitMs` calls);
* `static/js/views/live.js` — roster reconciliation with the timed fade-out
  lifecycle (`reconcile`), modelled over an association-list roster mirroring
  the JS `Map` (insertion order preserved, unique keys).

JS numbers are modelled as rationals (`ℚ`), timestamps as integers (`ℤ`, the
values of `Date.now()`), DOM pixel measurements (`scrollWidth`) as an abstract
width function.  Device ids are `Option ℕ`: `none` models the JS value
`undefined` produced by a batch entry that lacks a `dev` field (which is a
legal `Map` key in JS).
-/

set_option autoImplicit false

namespace Wemoov

/-! ## LayoutEngine: `shared.js` -/

/-- `layoutForCount` (shared.js:194-252), restricted to the pure
column/row table; the DOM writes and the per-card height are side effects on
the grid element and do not feed back into the table. -/
def layoutForCount (n : ℤ) : ℤ × ℤ :=
  if n ≤ 0 then (1, 1)
  else if n ≤ 2 then (n, 1)
  else if n ≤ 4 then (2, 2)
  else if n ≤ 6 then (3, 2)
  else if n ≤ 8 then (4, 2)
  else if n = 9 then (3, 3)
  else if n ≤ 12 then (4, 3)
  else (4, 4)

/-- `pctFrom` (shared.js:49-54).  A JS argument that is not a number
(`typeof x !== "number"`) is modelled as `none`; a number as `some`
rational. -/
def pctFrom (hr hrmax : Option ℚ) : Option ℤ :=
  match hr, hrmax with
  | some h, some m => if 0 < m then some (max 0 (min 100 ⌊h * 100 / m⌋)) else none
  | _, _ => none

/-- `computeMinDimPerCard` (shared.js:149-160): minimum of the per-card width
and height for a `cols × rows` split of the grid. -/
def computeMinDimPerCard (gridW gridH gap : ℚ) (cols rows : ℤ) : ℚ :=
  let cardW := max 0 ((gridW - (cols - 1) * gap) / cols)
  let cardH := max 0 ((gridH - (rows - 1) * gap) / rows)
  min cardW cardH

/-- `applyResponsiveTextScale` (shared.js:162-189).  Returns the triple
`(textScale, metricScale, headerScale)` written to the CSS variables, or
`none` on the falsy-argument guard (`!grid || !cols || !rows`). -/
def applyResponsiveTextScale (gridW gridH gap : ℚ) (cols rows count : ℤ) :
    Option (ℚ × ℚ × ℚ) :=
  if cols = 0 ∨ rows = 0 then none
  else
    let baseMin := computeMinDimPerCard gridW gridH gap 1 1
    let curMin := computeMinDimPerCard gridW gridH gap cols rows
    let scale0 : ℚ := if 0 < baseMin then curMin / baseMin else 1
    let scale : ℚ := max (35/100) (min 1 scale0)
    let metricScale : ℚ := if count = 2 ∨ count = 7 ∨ count = 8 then 3/4 else 1
    let headerScale : ℚ := if 13 ≤ count ∧ count ≤ 24 then 3/4 else 1
    some (scale, metricScale, headerScale)

/-! ## SummaryAcquisition: `summary.js`

`loadSummaryWithPolling` is modelled as a function of the list of responses
the server would deliver to successive `fetchPersisted` calls.  Responses are
taken to arrive instantly (the regime of the spec's timing scenario), so the
clock `t` (milliseconds since `T0`) advances exactly by the `waitMs` calls.
`SResp` is the result classification produced by `fetchPersisted`
(summary.js:54-79); for `pending` the carried number is `retryAfter` after
that function's own `Retry-After` parsing. -/

/-- One response of `/live/summary/persisted`, as classified by
`fetchPersisted`.  `ok` carries the payload's run id (`none` when absent or
falsy), the length of `payload.devices` (`0` also covers a null payload or a
non-array `devices` field) and the response `ETag`. -/
inductive SResp where
  | pending (retryAfter : ℕ)
  | notModified
  | httpError
  | netFail
  | ok (runId : Option ℕ) (nDev : ℕ) (etag : Option ℕ)
deriving DecidableEq, Repr

/-- Observable actions of one `loadSummaryWithPolling` invocation. -/
inductive SEvent where
  | holder
  | poke
  | fetchReq
  | wait (ms : ℕ)
  | render
  | silentRetry
  | timeoutMsg
  | starved
deriving DecidableEq, Repr

/-- The module-level mutable state `lastETag` / `currentRunId`
(summary.js:22-23). -/
structure SumSt where
  lastETag : Option ℕ
  currentRunId : Option ℕ
deriving DecidableEq, Repr

/-- One call of `renderSummary`: the run id it stores, the device count laid
out, and the value of `Date.now() - T0` when it happened. -/
structure SRender where
  runId : Option ℕ
  nDev : ℕ
  time : ℕ
deriving DecidableEq, Repr

/-- Result of one polling cycle: final module state, event trace and the
renders performed. -/
structure RunOut where
  st : SumSt
  trace : List SEvent
  renders : List SRender
deriving DecidableEq, Repr

/-- The `while (Date.now() - T0 < MAX_WAIT)` loop of `loadSummaryWithPolling`
(summary.js:105-166).  `MAX_WAIT = 15000`.  `starved` marks a script that ran
out of responses while the loop still wanted one (never reached by the
scenarios proved below). -/
def pollLoop : List SResp → ℕ → SumSt → RunOut
  | [], t, st =>
      if 15000 ≤ t then ⟨st, [.timeoutMsg, .silentRetry], []⟩
      else ⟨st, [.starved], []⟩
  | r :: rest, t, st =>
      if 15000 ≤ t then ⟨st, [.timeoutMsg, .silentRetry], []⟩
      else
        match r with
        | .pending ra =>
            let w := (if ra = 0 then 2 else ra) * 1000
            let o := pollLoop rest (t + w) st
            ⟨o.st, .fetchReq :: .wait w :: o.trace, o.renders⟩
        | .notModified =>
            let o := pollLoop rest (t + 2000) st
            ⟨o.st, .fetchReq :: .wait 2000 :: o.trace, o.renders⟩
        | .httpError => ⟨st, [.fetchReq, .silentRetry], []⟩
        | .netFail =>
            let o := pollLoop rest (t + 2000) st
            ⟨o.st, .fetchReq :: .wait 2000 :: o.trace, o.renders⟩
        | .ok runId nDev etag =>
            if nDev = 0 then
              let o := pollLoop rest (t + 2000) st
              ⟨o.st, .fetchReq :: .wait 2000 :: o.trace, o.renders⟩
            else if st.currentRunId.isSome ∧ runId.isSome ∧ runId = st.currentRunId then
              ⟨st, [.fetchReq, .silentRetry], []⟩
            else
              ⟨⟨etag, runId⟩, [.fetchReq, .render, .silentRetry], [⟨runId, nDev, t⟩]⟩

/-- `loadSummaryWithPolling` (summary.js:94-166).  On a non-silent call it
shows the placeholder and awaits the poke request before entering the loop;
there is no other work before the first conditional fetch. -/
def loadSummaryWithPolling (silent : Bool) (script : List SResp) (st : SumSt) :
    RunOut :=
  let o := pollLoop script 0 st
  if silent then o else ⟨o.st, .holder :: .poke :: o.trace, o.renders⟩

/-! ## Label fitting: `fitNick` (shared.js:66-133)

The DOM measurement `el.scrollWidth` at a given `font-size` is abstracted as a
function `width : ℚ → ℚ` of the font size (the element's overflow is forced to
`visible` for the whole measurement phase, so no other style interferes).  The
tracked style state of the label is `NickStyle`. -/

/-- The inline style/class state of a nick label that `fitNick` touches. -/
structure NickStyle where
  overflow : String
  textOverflow : String
  fontSize : ℚ
  shrunk : Bool
deriving DecidableEq, Repr

/-- The 16-iteration loop of `fitNick` (shared.js:109-117): binary search with
`lo = mid` / `hi = mid - 1` and `mid = Math.floor((lo + hi) / 2)`, returning
the final `lo`. -/
def searchLoop (fits : ℤ → Bool) : ℕ → ℚ → ℚ → ℚ
  | 0, lo, _ => lo
  | n + 1, lo, hi =>
      let mid : ℤ := ⌊(lo + hi) / 2⌋
      if fits mid then searchLoop fits n (mid : ℚ) hi
      else searchLoop fits n lo ((mid : ℚ) - 1)

/-- `fitNick` (shared.js:66-133) for an attached label: `cardW` is
`card.clientWidth`, `baseNick`/`textScale`/`headerScale` the CSS variables
after their `|| defaults`, and `width` the measured `scrollWidth` as a
function of the font size.  Returns the label's style state after the call
(the zero-width guard at shared.js:72-77 leaves styles untouched and only
clears the `nick--shrunk` mark). -/
def fitNick (width : ℚ → ℚ) (cardW baseNick textScale headerScale : ℚ)
    (st : NickStyle) : NickStyle :=
  if cardW ≤ 0 then { st with shrunk := false }
  else
    let w := cardW * (92 / 100)
    let targetPx := baseNick * textScale * headerScale
    let needsSecondPass := decide (w < width targetPx)
    let finalPx :=
      if needsSecondPass then
        searchLoop (fun mid => decide (width (mid : ℚ) ≤ w)) 16 10 targetPx
      else targetPx
    { overflow := if st.overflow = "" then "clip" else st.overflow
      textOverflow := if st.textOverflow = "" then "ellipsis" else st.textOverflow
      fontSize := finalPx
      shrunk := decide (finalPx < targetPx - 1 / 2) }

/-! ## RosterReconciler: `reconcile` (live.js:99-153)

The roster is the JS `Map` `cards`, modelled as an association list with
unique keys in insertion order.  A device id is `Option ℕ`; `none` is the JS
`undefined` obtained from a batch entry with no `dev` field.  Of a card's DOM
state we track exactly what `reconcile` reads or writes: `fadeStart`, the
inline `opacity`, and the inline `transform` (`none` = the reset value `""`,
`some s` = `scale(s)`). -/

/-- Device id: `none` models the JS `undefined` key. -/
abbrev DevId := Option ℕ

/-- The per-device roster entry `{ el, fadeStart }` together with the widget
style written by the fade logic. -/
structure Card where
  fadeStart : Option ℤ
  opacity : ℚ
  scaleT : Option ℚ
deriving DecidableEq, Repr

/-- A batch entry, reduced to the only field `reconcile` keys on. -/
structure Sample where
  dev : DevId
deriving DecidableEq, Repr

/-- The `cards` map: association list, unique keys, insertion order. -/
abbrev Roster := List (DevId × Card)

/-- A freshly built card: Active, fully opaque, identity transform
(`buildCard` sets none of the fade styles). -/
def newCard : Card := ⟨none, 1, none⟩

/-- `cards.get(k)`. -/
def rlookup (k : DevId) : Roster → Option Card
  | [] => none
  | (k', c) :: r => if k' = k then some c else rlookup k r

/-- `cards.set(k, c)` for a key already present: replace in place. -/
def setCard (k : DevId) (c : Card) : Roster → Roster
  | [] => []
  | (k', c') :: r => if k' = k then (k, c) :: r else (k', c') :: setCard k c r

/-- The update branch of the batch loop (live.js:113-121): refresh the widget
content and, if the card had started fading, clear the fade (opacity `"1"`,
transform `""`). -/
def resetCard (c : Card) : Card :=
  if c.fadeStart = none then c else newCard

/-- One iteration of the batch loop `for (const d of arr)`
(live.js:107-122). -/
def updateOne (r : Roster) (d : Sample) : Roster :=
  match rlookup d.dev r with
  | none => r ++ [(d.dev, newCard)]
  | some c => setCard d.dev (resetCard c) r

/-- The fade loop `for (const [dev, entry] of cards)` (live.js:125-148):
returns the surviving roster and the list of destroyed device ids. -/
def fadeStep (nowDevs : List DevId) (now fadeMs : ℤ) :
    Roster → Roster × List DevId
  | [] => ([], [])
  | (k, c) :: r =>
      let rec' := fadeStep nowDevs now fadeMs r
      if k ∈ nowDevs then ((k, c) :: rec'.1, rec'.2)
      else
        match c.fadeStart with
        | none => ((k, { c with fadeStart := some now }) :: rec'.1, rec'.2)
        | some t0 =>
            let elapsed := now - t0
            if fadeMs ≤ elapsed then (rec'.1, k :: rec'.2)
            else
              let p : ℚ := min 1 ((elapsed : ℚ) / (fadeMs : ℚ))
              ((k, { c with opacity := 1 - p, scaleT := some (1 - p * (2 / 100)) })
                  :: rec'.1, rec'.2)

/-- `reconcile(list)` (live.js:99-153), minus the purely visual layout /
zoneline refresh of steps 3.  `list = none` models a payload that is not an
array (`Array.isArray(list) ? list : []`); `fadeMs` is
`CONFIG.FADE_DURATION_MS || 60000`, `now` is `Date.now()`.  Returns the new
roster and the ids destroyed during this call. -/
def reconcile (list : Option (List Sample)) (now fadeMs : ℤ) (r : Roster) :
    Roster × List DevId :=
  let arr := list.getD []
  let nowDevs := arr.map Sample.dev
  let r1 := arr.foldl updateOne r
  fadeStep nowDevs now fadeMs r1

/-- One observed reconciliation call: the batch and its `Date.now()`. -/
abbrev Step := Option (List Sample) × ℤ

/-- The ids present in a batch. -/
def batchIds (b : Option (List Sample)) : List DevId :=
  (b.getD []).map Sample.dev

/-- Device `d` is absent from batch `b` (also holds for a malformed batch). -/
def AbsentFrom (d : DevId) (b : Option (List Sample)) : Prop :=
  d ∉ batchIds b

instance (d : DevId) (b : Option (List Sample)) : Decidable (AbsentFrom d b) :=
  inferInstanceAs (Decidable (d ∉ batchIds b))

/-- The roster after one reconciliation step. -/
def stepR (fadeMs : ℤ) (r : Roster) (s : Step) : Roster :=
  (reconcile s.1 s.2 fadeMs r).1

/-- The roster after a sequence of reconciliation calls. -/
def runR (fadeMs : ℤ) (r : Roster) (steps : List Step) : Roster :=
  steps.foldl (stepR fadeMs) r

/-- Per-step lists of destroyed ids along a sequence of reconciliations. -/
def destroyedDuring (fadeMs : ℤ) (r : Roster) : List Step → List (List DevId)
  | [] => []
  | s :: rest =>
      (reconcile s.1 s.2 fadeMs r).2
        :: destroyedDuring fadeMs (stepR fadeMs r s) rest

/-- Style invariant tied to the fade lifecycle: an Active card is fully
opaque with the identity transform. -/
def CardOK (c : Card) : Prop :=
  c.fadeStart = none → c.opacity = 1 ∧ c.scaleT = none

/-- All roster entries satisfy `CardOK`. -/
def RosterOK (r : Roster) : Prop := ∀ kc ∈ r, CardOK kc.2

/-- The JS `Map` key uniqueness. -/
def NodupKeys (r : Roster) : Prop := (r.map Prod.fst).Nodup

/-- Global roster invariant (holds for the initial empty map and is preserved
by `reconcile`). -/
def GInv (r : Roster) : Prop := NodupKeys r ∧ RosterOK r

/-- A concrete monotone measured-width function used to exercise `fitNick`:
a label that fits (width 10) up to font size 14 and overflows (width 100)
above it. -/
def cexWidth : ℚ → ℚ := fun q => if q ≤ 14 then 10 else 100

end Wemoov

namespace Wemoov

/-! ## Theorems -/

/-- C3: `layoutForCount` is exactly the stated deterministic lookup table
(n≤0→(1,1); n∈[1,2]→(n,1); n∈[3,4]→(2,2); n∈[5,6]→(3,2); n∈[7,8]→(4,2);
n=9→(3,3); n∈[10,12]→(4,3); n≥13→(4,4)); for every n∈[1,16] the returned
geometry satisfies columns×rows ≥ n; and the result depends only on n
(repeated calls agree). -/
theorem layoutForCount_table :
    (∀ n : ℤ, n ≤ 0 → layoutForCount n = (1, 1)) ∧
    (∀ n : ℤ, 1 ≤ n → n ≤ 2 → layoutForCount n = (n, 1)) ∧
    (∀ n : ℤ, 3 ≤ n → n ≤ 4 → layoutForCount n = (2, 2)) ∧
    (∀ n : ℤ, 5 ≤ n → n ≤ 6 → layoutForCount n = (3, 2)) ∧
    (∀ n : ℤ, 7 ≤ n → n ≤ 8 → layoutForCount n = (4, 2)) ∧
    (layoutForCount 9 = (3, 3)) ∧
    (∀ n : ℤ, 10 ≤ n → n ≤ 12 → layoutForCount n = (4, 3)) ∧
    (∀ n : ℤ, 13 ≤ n → layoutForCount n = (4, 4)) ∧
    (∀ n : ℤ, 1 ≤ n → n ≤ 16 →
      n ≤ (layoutForCount n).1 * (layoutForCount n).2) ∧
    (∀ n m : ℤ, n = m → layoutForCount n = layoutForCount m) := by
  refine ⟨?_, ?_, ?_, ?_, ?_, by decide, ?_, ?_, ?_, ?_⟩
  · intro n h; unfold layoutForCount; rw [if_pos h]
  · intro n h1 h2; unfold layoutForCount
    rw [if_neg (by omega), if_pos h2]
  · intro n h1 h2; unfold layoutForCount
    rw [if_neg (by omega), if_neg (by omega), if_pos h2]
  · intro n h1 h2; unfold layoutForCount
    rw [if_neg (by omega), if_neg (by omega), if_neg (by omega), if_pos h2]
  · intro n h1 h2; unfold layoutForCount
    rw [if_neg (by omega), if_neg (by omega), if_neg (by omega),
      if_neg (by omega), if_pos h2]
  · intro n h1 h2; unfold layoutForCount
    rw [if_neg (by omega), if_neg (by omega), if_neg (by omega),
      if_neg (by omega), if_neg (by omega), if_neg (by omega), if_pos h2]
  · intro n h; unfold layoutForCount
    rw [if_neg (by omega), if_neg (by omega), if_neg (by omega),
      if_neg (by omega), if_neg (by omega), if_neg (by omega),
      if_neg (by omega)]
  · intro n h1 h2; interval_cases n <;> decide
  · intro n m h; rw [h]

/-- C3 witness: the table and the coverage bound evaluated at n = 5. -/
theorem layoutForCount_table_witness :
    layoutForCount 5 = (3, 2) ∧ (5 : ℤ) ≤ (layoutForCount 5).1 * (layoutForCount 5).2 :=
  ⟨layoutForCount_table.2.2.2.1 5 (by decide) (by decide),
   layoutForCount_table.2.2.2.2.2.2.2.2.1 5 (by decide) (by decide)⟩

/-- C10: `pctFrom` is total and never divides by zero — it returns `none`
unless both arguments are numbers with `hrmax > 0`, in which case it returns
`⌊hr·100/hrmax⌋` clamped into [0,100]; every non-`none` result is an integer
in [0, 100]. -/
theorem pctFrom_safe (hr hrmax : Option ℚ) :
    (∀ h : ℚ, hr = some h → ∀ m : ℚ, hrmax = some m → 0 < m →
      pctFrom hr hrmax = some (max 0 (min 100 ⌊h * 100 / m⌋))) ∧
    (pctFrom hr hrmax ≠ none →
      ∃ h m, hr = some h ∧ hrmax = some m ∧ 0 < m) ∧
    (∀ v : ℤ, pctFrom hr hrmax = some v → 0 ≤ v ∧ v ≤ 100) := by
  refine ⟨?_, ?_, ?_⟩
  · rintro h rfl m rfl hm
    simp [pctFrom, hm]
  · intro hne
    match hr, hrmax with
    | some h, some m =>
      refine ⟨h, m, rfl, rfl, ?_⟩
      by_contra hm
      simp [pctFrom, hm] at hne
    | some h, none => simp [pctFrom] at hne
    | none, some m => simp [pctFrom] at hne
    | none, none => simp [pctFrom] at hne
  · intro v hv
    match hr, hrmax with
    | some h, some m =>
      by_cases hm : 0 < m
      · simp [pctFrom, hm] at hv
        omega
      · simp [pctFrom, hm] at hv
    | some h, none => simp [pctFrom] at hv
    | none, some m => simp [pctFrom] at hv
    | none, none => simp [pctFrom] at hv

/-- C10 witness: hr 150, hrmax 190 gives ⌊15000/190⌋ = 78, inside [0,100]. -/
theorem pctFrom_safe_witness :
    pctFrom (some 150) (some 190) = some 78 ∧ (0 : ℤ) ≤ 78 ∧ (78 : ℤ) ≤ 100 := by
  have h := (pctFrom_safe (some 150) (some 190)).1 150 rfl 190 rfl (by norm_num)
  have hb := (pctFrom_safe (some 150) (some 190)).2.2 78
  constructor
  · rw [h]; norm_num
  · exact ⟨by norm_num, by norm_num⟩

end Wemoov

namespace Wemoov

/-- C5: for non-degenerate (non-falsy) cols/rows, `applyResponsiveTextScale`
returns `textScale = clamp(minDim(cols,rows)/minDim(1,1), 0.35, 1.0)`
(equal to 1.0 when the base measurement is zero/degenerate, and always within
[0.35, 1]); `metricScale = 0.75` exactly when count ∈ {2,7,8} and 1 otherwise;
`headerScale = 0.75` exactly when count ∈ [13,24] and 1 otherwise. -/
theorem applyResponsiveTextScale_spec (gW gH gap : ℚ) (cols rows count : ℤ)
    (hc : cols ≠ 0) (hr : rows ≠ 0) :
    ∃ ts ms hs,
      applyResponsiveTextScale gW gH gap cols rows count = some (ts, ms, hs) ∧
      (0 < computeMinDimPerCard gW gH gap 1 1 →
        ts = max (35/100) (min 1
          (computeMinDimPerCard gW gH gap cols rows
            / computeMinDimPerCard gW gH gap 1 1))) ∧
      (computeMinDimPerCard gW gH gap 1 1 ≤ 0 → ts = 1) ∧
      (35/100 ≤ ts ∧ ts ≤ 1) ∧
      (ms = 3/4 ↔ (count = 2 ∨ count = 7 ∨ count = 8)) ∧
      (¬(count = 2 ∨ count = 7 ∨ count = 8) → ms = 1) ∧
      (hs = 3/4 ↔ (13 ≤ count ∧ count ≤ 24)) ∧
      (¬(13 ≤ count ∧ count ≤ 24) → hs = 1) := by
  unfold applyResponsiveTextScale
  rw [if_neg (by tauto)]
  refine ⟨_, _, _, rfl, ?_, ?_, ⟨le_max_left _ _, ?_⟩, ?_, ?_, ?_, ?_⟩
  · intro hpos; rw [if_pos hpos]
  · intro hle; rw [if_neg (not_lt.mpr hle)]; norm_num
  · refine max_le (by norm_num) ?_
    exact min_le_left _ _
  · by_cases h : count = 2 ∨ count = 7 ∨ count = 8
    · simp only [if_pos h]; tauto
    · simp only [if_neg h]
      constructor
      · intro h1; norm_num at h1
      · intro h1; exact absurd h1 h
  · intro h; rw [if_neg h]
  · by_cases h : 13 ≤ count ∧ count ≤ 24
    · simp only [if_pos h]; tauto
    · simp only [if_neg h]
      constructor
      · intro h1; norm_num at h1
      · intro h1; exact absurd h1 h
  · intro h; rw [if_neg h]

/-- C5 witness: a 1920×1080 grid with zero gap, 4×2 layout, count 7 gives
metricScale 0.75 and headerScale 1 (and some textScale), matching the claim's
example. -/
theorem applyResponsiveTextScale_spec_witness :
    ∃ ts ms hs,
      applyResponsiveTextScale 1920 1080 0 4 2 7 = some (ts, ms, hs) ∧
      ms = 3/4 ∧ hs = 1 := by
  obtain ⟨ts, ms, hs, heq, _, _, _, hmsiff, _, _, hhs1⟩ :=
    applyResponsiveTextScale_spec 1920 1080 0 4 2 7 (by norm_num) (by norm_num)
  exact ⟨ts, ms, hs, heq, hmsiff.mpr (by norm_num), hhs1 (by omega)⟩

end Wemoov

namespace Wemoov

/-- C7: for an accepted non-empty snapshot inside a polling cycle, if its
runId is present and equals the last rendered runId the engine does not
re-render (state, including `lastETag`/`currentRunId`, is unchanged and no
render is emitted) and schedules a silent retry; if the server omits the
runId the dedup check is skipped and the snapshot is rendered (state updated
to the response's ETag and runId `none`). -/
theorem summary_dedup (r nDev : ℕ) (etag : Option ℕ) (rest : List SResp)
    (t : ℕ) (st : SumSt) (ht : t < 15000) (hn : nDev ≠ 0) :
    (st.currentRunId = some r →
      pollLoop (.ok (some r) nDev etag :: rest) t st =
        ⟨st, [.fetchReq, .silentRetry], []⟩) ∧
    (pollLoop (.ok none nDev etag :: rest) t st =
      ⟨⟨etag, none⟩, [.fetchReq, .render, .silentRetry], [⟨none, nDev, t⟩]⟩) := by
  constructor
  · intro hcur
    simp [pollLoop, Nat.not_le.mpr ht, hn, hcur]
  · simp [pollLoop, Nat.not_le.mpr ht, hn]

/-- C7 witness: with `currentRunId = some 1`, a `200` carrying runId 1 is not
re-rendered (silent retry, state untouched), while a `200` with no runId is
rendered. -/
theorem summary_dedup_witness :
    pollLoop [.ok (some 1) 3 (some 2)] 0 ⟨none, some 1⟩ =
      ⟨⟨none, some 1⟩, [.fetchReq, .silentRetry], []⟩ ∧
    pollLoop [.ok none 3 (some 2)] 0 ⟨none, some 1⟩ =
      ⟨⟨some 2, none⟩, [.fetchReq, .render, .silentRetry], [⟨none, 3, 0⟩]⟩ := by
  have h := summary_dedup 1 3 (some 2) [] 0 ⟨none, some 1⟩ (by decide) (by decide)
  exact ⟨h.1 rfl, h.2⟩

/-- C1 counterexample: for the claim's own instant response sequence
[204(retry=2), 200(empty devices), 200(runId=A, 3 devices)], the single
render happens after a total wait of 4000 ms (2000 + 2000), strictly below
the claimed 5000 ms minimum — `loadSummaryWithPolling` has no
`MIN_SHOW_MS`-style anti-flicker gate. -/
theorem summary_no_anti_flicker :
    (loadSummaryWithPolling false
        [.pending 2, .ok none 0 none, .ok (some 1) 3 (some 7)]
        ⟨none, none⟩).renders = [⟨some 1, 3, 4000⟩] ∧
    4000 < 5000 := by
  constructor
  · rfl
  · decide

/-- C1 amended: there is no anti-flicker minimum-display gate — an accepted
snapshot is rendered immediately.  For the instant sequence
[204(retry=2), 200(empty devices), 200(runId=A, 3 devices)] the engine
renders exactly once, with runId A, after exactly 4000 ms of waiting, then
schedules a silent retry. -/
theorem summary_render_timing :
    loadSummaryWithPolling false
        [.pending 2, .ok none 0 none, .ok (some 1) 3 (some 7)] ⟨none, none⟩ =
      ⟨⟨some 7, some 1⟩,
       [.holder, .poke, .fetchReq, .wait 2000, .fetchReq, .wait 2000,
        .fetchReq, .render, .silentRetry],
       [⟨some 1, 3, 4000⟩]⟩ := by
  rfl

/-- C8 counterexample: a non-silent invocation shows the placeholder, issues
the poke, and then immediately issues the first conditional fetch — the trace
contains no 3000 ms settle wait (nor any wait at all) between the poke and
the first poll. -/
theorem summary_no_settle_delay :
    (loadSummaryWithPolling false [.httpError] ⟨none, none⟩).trace =
      [.holder, .poke, .fetchReq, .silentRetry] ∧
    SEvent.wait 3000 ∉
      (loadSummaryWithPolling false [.httpError] ⟨none, none⟩).trace := by
  constructor
  · rfl
  · decide

/-- C8 amended: on every non-silent invocation the Priming phase displays the
loading placeholder and awaits the fire-and-forget materialization request,
and the first conditional poll follows immediately — with no settle delay in
between. -/
theorem summary_priming_polls_immediately (r : SResp) (rest : List SResp)
    (st : SumSt) :
    (loadSummaryWithPolling false (r :: rest) st).trace.take 3 =
      [.holder, .poke, .fetchReq] := by
  unfold loadSummaryWithPolling
  cases r
  all_goals simp [pollLoop]
  all_goals split_ifs <;> rfl

end Wemoov

namespace Wemoov

/-- Unfolding lemma for one iteration of the fit search. -/
theorem searchLoop_succ_eq (fits : ℤ → Bool) (n : ℕ) (lo hi : ℚ) :
    searchLoop fits (n + 1) lo hi =
      if fits ⌊(lo + hi) / 2⌋ then searchLoop fits n ((⌊(lo + hi) / 2⌋ : ℤ) : ℚ) hi
      else searchLoop fits n lo (((⌊(lo + hi) / 2⌋ : ℤ) : ℚ) - 1) := rfl

/-- The integer midpoint `⌊(m + hi)/2⌋` halves the integer gap: twice the
midpoint is within one of `m + ⌊hi⌋`. -/
theorem searchLoop_mid_bounds (m : ℤ) (hi : ℚ) :
    m + ⌊hi⌋ - 1 ≤ 2 * ⌊((m : ℚ) + hi) / 2⌋ ∧
      2 * ⌊((m : ℚ) + hi) / 2⌋ ≤ m + ⌊hi⌋ := by
  have hf1 : ((⌊((m : ℚ) + hi) / 2⌋ : ℤ) : ℚ) ≤ ((m : ℚ) + hi) / 2 :=
    Int.floor_le _
  have hf2 : ((m : ℚ) + hi) / 2 < ((⌊((m : ℚ) + hi) / 2⌋ : ℤ) : ℚ) + 1 :=
    Int.lt_floor_add_one _
  have hf3 : ((⌊hi⌋ : ℤ) : ℚ) ≤ hi := Int.floor_le _
  have hf4 : hi < ((⌊hi⌋ : ℤ) : ℚ) + 1 := Int.lt_floor_add_one _
  have key1 : ((m + ⌊hi⌋ : ℤ) : ℚ) < ((2 * ⌊((m : ℚ) + hi) / 2⌋ + 2 : ℤ) : ℚ) := by
    push_cast
    linarith
  have key2 : ((2 * ⌊((m : ℚ) + hi) / 2⌋ : ℤ) : ℚ) < ((m + ⌊hi⌋ + 1 : ℤ) : ℚ) := by
    push_cast
    linarith
  have k1 : m + ⌊hi⌋ < 2 * ⌊((m : ℚ) + hi) / 2⌋ + 2 := by exact_mod_cast key1
  have k2 : 2 * ⌊((m : ℚ) + hi) / 2⌋ < m + ⌊hi⌋ + 1 := by exact_mod_cast key2
  omega

/-- If the midpoint of the current interval is the lower bound itself and it
fits, the loop is stuck there and returns it, whatever fuel remains. -/
theorem searchLoop_fixed (fits : ℤ → Bool) (m : ℤ) (hi : ℚ)
    (hmid : ⌊((m : ℚ) + hi) / 2⌋ = m) (hf : fits m = true) :
    ∀ n : ℕ, searchLoop fits n ((m : ℤ) : ℚ) hi = ((m : ℤ) : ℚ) := by
  intro n
  induction n with
  | zero => rfl
  | succ n ih => rw [searchLoop_succ_eq, hmid, if_pos hf, ih]

/-- Core interval invariant of the 16-iteration search: when the fit
predicate is downward closed with greatest fitting size `a`, and the fuel
covers the initial integer gap, the final lower bound lands in `[a-1, a]`. -/
theorem searchLoop_close (fits : ℤ → Bool) (a : ℤ)
    (hfit : ∀ s : ℤ, fits s = true ↔ s ≤ a) :
    ∀ (n : ℕ) (m : ℤ) (hi : ℚ), m ≤ a → (a : ℚ) ≤ hi → ⌊hi⌋ - m ≤ 2 ^ n →
      ((a : ℚ) - 1 ≤ searchLoop fits n ((m : ℤ) : ℚ) hi ∧
        searchLoop fits n ((m : ℤ) : ℚ) hi ≤ (a : ℚ)) := by
  intro n
  induction n with
  | zero =>
      intro m hi hma hahi hgap
      have hafl : a ≤ ⌊hi⌋ := Int.le_floor.mpr hahi
      have h1 : a - 1 ≤ m := by omega
      constructor
      · show (a : ℚ) - 1 ≤ ((m : ℤ) : ℚ)
        exact_mod_cast h1
      · show ((m : ℤ) : ℚ) ≤ (a : ℚ)
        exact_mod_cast hma
  | succ n ih =>
      intro m hi hma hahi hgap
      have hafl : a ≤ ⌊hi⌋ := Int.le_floor.mpr hahi
      have hmid := searchLoop_mid_bounds m hi
      have h2 : (2 : ℤ) ^ (n + 1) = 2 * 2 ^ n := by ring
      rw [searchLoop_succ_eq]
      by_cases hf : fits ⌊(((m : ℤ) : ℚ) + hi) / 2⌋ = true
      · rw [if_pos hf]
        have hmida : ⌊(((m : ℤ) : ℚ) + hi) / 2⌋ ≤ a := (hfit _).mp hf
        exact ih ⌊(((m : ℤ) : ℚ) + hi) / 2⌋ hi hmida hahi (by omega)
      · rw [if_neg hf]
        have hamid : a ≤ ⌊(((m : ℤ) : ℚ) + hi) / 2⌋ - 1 := by
          by_contra hcon
          push_neg at hcon
          exact hf ((hfit _).mpr (by omega))
        have hcast : ((⌊(((m : ℤ) : ℚ) + hi) / 2⌋ : ℤ) : ℚ) - 1
            = ((⌊(((m : ℤ) : ℚ) + hi) / 2⌋ - 1 : ℤ) : ℚ) := by push_cast; ring
        rw [hcast]
        refine ih m _ hma (by exact_mod_cast hamid) ?_
        rw [Int.floor_intCast]
        omega

/-- If no integer size ≥ 9 fits, the lower bound never leaves 10: every
midpoint the loop probes stays ≥ 9. -/
theorem searchLoop_nofit (fits : ℤ → Bool)
    (hno : ∀ s : ℤ, 9 ≤ s → fits s = false) :
    ∀ (n : ℕ) (hi : ℚ), 8 ≤ ⌊hi⌋ → searchLoop fits n (10 : ℚ) hi = 10 := by
  intro n
  induction n with
  | zero => intro hi _; rfl
  | succ n ih =>
      intro hi h8
      have hmid := searchLoop_mid_bounds 10 hi
      push_cast at hmid
      have h9 : 9 ≤ ⌊((10 : ℚ) + hi) / 2⌋ := by omega
      rw [searchLoop_succ_eq, hno _ h9]
      simp only [Bool.false_eq_true, if_false]
      have hcast : ((⌊((10 : ℚ) + hi) / 2⌋ : ℤ) : ℚ) - 1
          = ((⌊((10 : ℚ) + hi) / 2⌋ - 1 : ℤ) : ℚ) := by push_cast; ring
      rw [hcast]
      refine ih _ ?_
      rw [Int.floor_intCast]
      omega

end Wemoov

namespace Wemoov

/-- C4 amended: for a label whose rendered width is non-decreasing in font
size, (i) if the label fits within `containerWidth × 0.92` at the maximal
size `maxFontPx = baseNick·textScale·headerScale`, `fitNick` returns exactly
`maxFontPx` with no search; (ii) otherwise, if some size ≥ MIN_PX = 10 fits
and the interval is covered by the 16 iterations, the returned size fits and
is within one of the largest fitting integer size (it may be the largest
minus one); (iii) if no size ≥ 9 fits, the returned size is MIN_PX = 10. -/
theorem fitNick_fontSize (width : ℚ → ℚ)
    (cardW baseNick textScale headerScale : ℚ) (st : NickStyle)
    (hcw : 0 < cardW)
    (hmono : ∀ q q' : ℚ, q ≤ q' → width q ≤ width q') :
    (width (baseNick * textScale * headerScale) ≤ cardW * (92 / 100) →
      (fitNick width cardW baseNick textScale headerScale st).fontSize
        = baseNick * textScale * headerScale) ∧
    (∀ a : ℤ,
      cardW * (92 / 100) < width (baseNick * textScale * headerScale) →
      10 ≤ a →
      width ((a : ℤ) : ℚ) ≤ cardW * (92 / 100) →
      ¬ width (((a : ℤ) : ℚ) + 1) ≤ cardW * (92 / 100) →
      ((a : ℤ) : ℚ) ≤ baseNick * textScale * headerScale →
      ⌊baseNick * textScale * headerScale⌋ - 10 ≤ 2 ^ 16 →
      (((a : ℤ) : ℚ) - 1
          ≤ (fitNick width cardW baseNick textScale headerScale st).fontSize ∧
        (fitNick width cardW baseNick textScale headerScale st).fontSize
          ≤ ((a : ℤ) : ℚ))) ∧
    (cardW * (92 / 100) < width (baseNick * textScale * headerScale) →
      (∀ s : ℤ, 9 ≤ s → ¬ width ((s : ℤ) : ℚ) ≤ cardW * (92 / 100)) →
      8 ≤ ⌊baseNick * textScale * headerScale⌋ →
      (fitNick width cardW baseNick textScale headerScale st).fontSize = 10) := by
  have hng : ¬ cardW ≤ 0 := not_le.mpr hcw
  refine ⟨?_, ?_, ?_⟩
  · intro hfits
    unfold fitNick
    rw [if_neg hng]
    dsimp only
    rw [if_neg (by simpa using not_lt.mpr hfits)]
  · intro a hsearch h10 hfita hfita1 haT hgap
    unfold fitNick
    rw [if_neg hng]
    dsimp only
    rw [if_pos (by simpa using hsearch)]
    have hfit : ∀ s : ℤ,
        (decide (width ((s : ℤ) : ℚ) ≤ cardW * (92 / 100))) = true ↔ s ≤ a := by
      intro s
      rw [decide_eq_true_eq]
      constructor
      · intro hws
        by_contra hsa
        push_neg at hsa
        have hcast : ((a : ℤ) : ℚ) + 1 ≤ ((s : ℤ) : ℚ) := by
          have : a + 1 ≤ s := hsa
          exact_mod_cast this
        exact hfita1 (le_trans (hmono _ _ hcast) hws)
      · intro hsa
        exact le_trans (hmono _ _ (by exact_mod_cast hsa)) hfita
    have h := searchLoop_close
      (fun mid => decide (width ((mid : ℤ) : ℚ) ≤ cardW * (92 / 100))) a hfit
      16 10 (baseNick * textScale * headerScale) h10 haT hgap
    rw [show ((10 : ℤ) : ℚ) = (10 : ℚ) by norm_num] at h
    exact h
  · intro hsearch hno h8
    unfold fitNick
    rw [if_neg hng]
    dsimp only
    rw [if_pos (by simpa using hsearch)]
    exact searchLoop_nofit _
      (fun s hs => decide_eq_false (hno s hs)) 16 _ h8

/-- C4 witness for the amended theorem: for the concrete monotone width
`cexWidth` (fits up to size 14), container width 50 and maximal size 32, the
returned size lies in [13, 14]. -/
theorem fitNick_fontSize_witness :
    (13 : ℚ) ≤ (fitNick cexWidth 50 32 1 1 ⟨"", "", 0, false⟩).fontSize ∧
      (fitNick cexWidth 50 32 1 1 ⟨"", "", 0, false⟩).fontSize ≤ 14 := by
  have hmono : ∀ q q' : ℚ, q ≤ q' → cexWidth q ≤ cexWidth q' := by
    intro q q' h
    unfold cexWidth
    split_ifs <;> norm_num
    · linarith
  have h := (fitNick_fontSize cexWidth 50 32 1 1 ⟨"", "", 0, false⟩
      (by norm_num) hmono).2.1 14
      (by norm_num [cexWidth]) (by norm_num)
      (by norm_num [cexWidth]) (by norm_num [cexWidth])
      (by norm_num) (by norm_num)
  constructor
  · have := h.1
    norm_num at this ⊢
    linarith
  · have := h.2
    norm_num at this ⊢
    linarith

end Wemoov

namespace Wemoov

/-- Concrete run of the 16-iteration search for `cexWidth` (largest fitting
size 14) with bounds [10, 32]: the loop gets stuck at 13 and returns it. -/
theorem cex_searchLoop_eval :
    searchLoop (fun mid => decide (cexWidth ((mid : ℤ) : ℚ) ≤ 46)) 16 10 32
      = 13 := by
  rw [show (16 : ℕ) = 15 + 1 from rfl, searchLoop_succ_eq]
  rw [show ⌊((10 : ℚ) + 32) / 2⌋ = 21 from by norm_num]
  rw [if_neg (by norm_num [cexWidth])]
  rw [show ((21 : ℤ) : ℚ) - 1 = (20 : ℚ) from by norm_num]
  rw [show (15 : ℕ) = 14 + 1 from rfl, searchLoop_succ_eq]
  rw [show ⌊((10 : ℚ) + 20) / 2⌋ = 15 from by norm_num]
  rw [if_neg (by norm_num [cexWidth])]
  rw [show ((15 : ℤ) : ℚ) - 1 = (14 : ℚ) from by norm_num]
  rw [show (14 : ℕ) = 13 + 1 from rfl, searchLoop_succ_eq]
  rw [show ⌊((10 : ℚ) + 14) / 2⌋ = 12 from by norm_num]
  rw [if_pos (by norm_num [cexWidth])]
  rw [show (13 : ℕ) = 12 + 1 from rfl, searchLoop_succ_eq]
  rw [show ⌊(((12 : ℤ) : ℚ) + 14) / 2⌋ = 13 from by norm_num]
  rw [if_pos (by norm_num [cexWidth])]
  rw [searchLoop_fixed _ 13 14 (by norm_num) (by norm_num [cexWidth]) 12]
  norm_num

/-- C4 counterexample: for the monotone width `cexWidth` with container width
50 (fit threshold 46) and `maxFontPx = 32`, the largest fitting integer size
is 14 (14 fits, 15 does not), yet `fitNick` returns font size 13 — the search
does not return the largest fitting size. -/
theorem fitNick_not_largest :
    (fitNick cexWidth 50 32 1 1 ⟨"", "", 0, false⟩).fontSize = 13 ∧
    cexWidth ((14 : ℤ) : ℚ) ≤ 50 * (92 / 100) ∧
    ¬ cexWidth (((14 : ℤ) : ℚ) + 1) ≤ 50 * (92 / 100) ∧
    ((14 : ℤ) : ℚ) ≤ 32 * 1 * 1 ∧
    (13 : ℚ) < 14 := by
  refine ⟨?_, by norm_num [cexWidth], by norm_num [cexWidth], by norm_num,
    by norm_num⟩
  unfold fitNick
  rw [if_neg (by norm_num)]
  dsimp only
  rw [if_pos (by norm_num [cexWidth])]
  simp only [show (50 : ℚ) * (92 / 100) = 46 from by norm_num,
    show (32 : ℚ) * 1 * 1 = 32 from by norm_num]
  exact cex_searchLoop_eval

/-- C9 counterexample: when the prior inline `overflow`/`text-overflow`
values are empty (unset), `fitNick` does not restore them — it leaves the
hardcoded defaults `"clip"` / `"ellipsis"` behind. -/
theorem fitNick_overwrites_empty_styles :
    (fitNick cexWidth 50 10 1 1 ⟨"", "", 0, false⟩).overflow = "clip" ∧
    (fitNick cexWidth 50 10 1 1 ⟨"", "", 0, false⟩).textOverflow = "ellipsis" ∧
    ("clip" : String) ≠ "" ∧ ("ellipsis" : String) ≠ "" := by
  refine ⟨?_, ?_, by decide, by decide⟩ <;>
    · unfold fitNick
      rw [if_neg (by norm_num)]
      dsimp only
      rw [if_pos rfl]

/-- C9 amended: a measuring `fitNick` call restores the prior
`overflow`/`text-overflow` values exactly when they were non-empty, but
replaces an empty/unset prior value with the hardcoded defaults `"clip"` and
`"ellipsis"` respectively. -/
theorem fitNick_restores_styles (width : ℚ → ℚ)
    (cardW baseNick textScale headerScale : ℚ) (st : NickStyle)
    (hcw : 0 < cardW) :
    ((st.overflow ≠ "" →
        (fitNick width cardW baseNick textScale headerScale st).overflow
          = st.overflow) ∧
      (st.overflow = "" →
        (fitNick width cardW baseNick textScale headerScale st).overflow
          = "clip")) ∧
    ((st.textOverflow ≠ "" →
        (fitNick width cardW baseNick textScale headerScale st).textOverflow
          = st.textOverflow) ∧
      (st.textOverflow = "" →
        (fitNick width cardW baseNick textScale headerScale st).textOverflow
          = "ellipsis")) := by
  unfold fitNick
  rw [if_neg (not_le.mpr hcw)]
  dsimp only
  refine ⟨⟨?_, ?_⟩, ⟨?_, ?_⟩⟩
  · intro h; rw [if_neg h]
  · intro h; rw [if_pos h]
  · intro h; rw [if_neg h]
  · intro h; rw [if_pos h]

/-- C9 witness: non-empty prior values ("visible"/"inherit") are restored
exactly. -/
theorem fitNick_restores_styles_witness :
    (fitNick cexWidth 50 10 1 1 ⟨"visible", "inherit", 0, false⟩).overflow
      = "visible" ∧
    (fitNick cexWidth 50 10 1 1 ⟨"visible", "inherit", 0, false⟩).textOverflow
      = "inherit" := by
  have h := fitNick_restores_styles cexWidth 50 10 1 1
    ⟨"visible", "inherit", 0, false⟩ (by norm_num)
  exact ⟨h.1.1 (by decide), h.2.1 (by decide)⟩

end Wemoov

namespace Wemoov

/-! ### Association-list lemmas for the roster -/

theorem rlookup_eq_none_iff (k : DevId) (r : Roster) :
    rlookup k r = none ↔ k ∉ r.map Prod.fst := by
  induction r with
  | nil => simp [rlookup]
  | cons kc rest ih =>
      obtain ⟨k', c⟩ := kc
      by_cases h : k' = k
      · subst h
        simp [rlookup]
      · simp only [rlookup, if_neg h, List.map_cons, List.mem_cons, ih]
        constructor
        · rintro hnot (h1 | h2)
          · exact h h1.symm
          · exact hnot h2
        · intro hnot hmem
          exact hnot (Or.inr hmem)

theorem rlookup_mem {k : DevId} {c : Card} {r : Roster}
    (h : rlookup k r = some c) : (k, c) ∈ r := by
  induction r with
  | nil => simp [rlookup] at h
  | cons kc rest ih =>
      obtain ⟨k', c'⟩ := kc
      by_cases hk : k' = k
      · subst hk
        rw [rlookup, if_pos rfl] at h
        injection h with h
        subst h
        exact List.mem_cons_self _ _
      · simp only [rlookup, if_neg hk] at h
        exact List.mem_cons_of_mem _ (ih h)

theorem rlookup_append_none {k : DevId} {r1 r2 : Roster}
    (h : rlookup k r1 = none) : rlookup k (r1 ++ r2) = rlookup k r2 := by
  induction r1 with
  | nil => rfl
  | cons kc rest ih =>
      obtain ⟨k', c⟩ := kc
      by_cases hk : k' = k
      · simp [rlookup, hk] at h
      · simp only [rlookup, if_neg hk] at h ⊢
        exact ih h

theorem rlookup_append_some {k : DevId} {c : Card} {r1 r2 : Roster}
    (h : rlookup k r1 = some c) : rlookup k (r1 ++ r2) = some c := by
  induction r1 with
  | nil => simp [rlookup] at h
  | cons kc rest ih =>
      obtain ⟨k', c'⟩ := kc
      by_cases hk : k' = k
      · simp only [rlookup, if_pos hk] at h ⊢
        exact h
      · simp only [rlookup, if_neg hk] at h ⊢
        exact ih h

theorem rlookup_setCard_some {k : DevId} {c c' : Card} {r : Roster}
    (h : rlookup k r = some c') : rlookup k (setCard k c r) = some c := by
  induction r with
  | nil => simp [rlookup] at h
  | cons kc rest ih =>
      obtain ⟨k', c''⟩ := kc
      by_cases hk : k' = k
      · subst hk
        simp [setCard, rlookup]
      · simp only [rlookup, if_neg hk] at h
        simp only [setCard, if_neg hk, rlookup, if_neg hk]
        exact ih h

theorem setCard_rlookup_none {k : DevId} {c : Card} {r : Roster}
    (h : rlookup k r = none) : setCard k c r = r := by
  induction r with
  | nil => rfl
  | cons kc rest ih =>
      obtain ⟨k', c'⟩ := kc
      by_cases hk : k' = k
      · simp [rlookup, hk] at h
      · simp only [rlookup, if_neg hk] at h
        simp only [setCard, if_neg hk, ih h]

theorem rlookup_setCard_ne {k k' : DevId} {c : Card} {r : Roster}
    (h : k' ≠ k) : rlookup k' (setCard k c r) = rlookup k' r := by
  induction r with
  | nil => rfl
  | cons kc rest ih =>
      obtain ⟨k'', c'⟩ := kc
      by_cases hk : k'' = k
      · subst hk
        rw [setCard, if_pos rfl, rlookup, rlookup,
          if_neg (Ne.symm h), if_neg (Ne.symm h)]
      · rw [setCard, if_neg hk, rlookup, rlookup]
        by_cases hk2 : k'' = k'
        · rw [if_pos hk2, if_pos hk2]
        · rw [if_neg hk2, if_neg hk2, ih]

theorem keys_setCard (k : DevId) (c : Card) (r : Roster) :
    (setCard k c r).map Prod.fst = r.map Prod.fst := by
  induction r with
  | nil => rfl
  | cons kc rest ih =>
      obtain ⟨k', c'⟩ := kc
      by_cases hk : k' = k
      · subst hk
        simp [setCard]
      · simp only [setCard, if_neg hk, List.map_cons, ih]

theorem mem_setCard {kc : DevId × Card} {k : DevId} {c : Card} {r : Roster}
    (h : kc ∈ setCard k c r) : kc ∈ r ∨ kc = (k, c) := by
  induction r with
  | nil => simp [setCard] at h
  | cons kc' rest ih =>
      obtain ⟨k', c'⟩ := kc'
      by_cases hk : k' = k
      · subst hk
        rw [setCard, if_pos rfl] at h
        rcases List.mem_cons.mp h with h1 | h1
        · exact Or.inr h1
        · exact Or.inl (List.mem_cons_of_mem _ h1)
      · rw [setCard, if_neg hk] at h
        rcases List.mem_cons.mp h with h1 | h1
        · exact Or.inl (h1 ▸ List.mem_cons_self _ _)
        · rcases ih h1 with h2 | h2
          · exact Or.inl (List.mem_cons_of_mem _ h2)
          · exact Or.inr h2

end Wemoov

namespace Wemoov

/-! ### Lemmas about the batch (additions/updates) phase -/

theorem cardOK_newCard : CardOK newCard := fun _ => ⟨rfl, rfl⟩

theorem cardOK_resetCard {c : Card} (h : CardOK c) : CardOK (resetCard c) := by
  unfold resetCard
  split_ifs with hf
  · exact h
  · exact cardOK_newCard

theorem card_eq_newCard {c : Card} (h1 : c.fadeStart = none)
    (h2 : c.opacity = 1) (h3 : c.scaleT = none) : c = newCard := by
  obtain ⟨fs, op, sc⟩ := c
  simp only at h1 h2 h3
  rw [newCard, h1, h2, h3]

theorem resetCard_newCard : resetCard newCard = newCard := rfl

theorem rlookup_updateOne_self (r : Roster) (d : Sample) :
    rlookup d.dev (updateOne r d) =
      some ((rlookup d.dev r).elim newCard resetCard) := by
  unfold updateOne
  cases h : rlookup d.dev r with
  | none =>
      rw [rlookup_append_none h]
      simp [rlookup]
  | some c =>
      simp only [Option.elim]
      exact rlookup_setCard_some h

theorem rlookup_updateOne_ne {k : DevId} (r : Roster) (d : Sample)
    (h : k ≠ d.dev) : rlookup k (updateOne r d) = rlookup k r := by
  unfold updateOne
  cases hh : rlookup d.dev r with
  | none =>
      cases hk : rlookup k r with
      | none =>
          rw [rlookup_append_none hk]
          simp [rlookup, Ne.symm h]
      | some c => exact rlookup_append_some hk
  | some c => exact rlookup_setCard_ne h

theorem nodupKeys_updateOne {r : Roster} (h : NodupKeys r) (d : Sample) :
    NodupKeys (updateOne r d) := by
  unfold updateOne
  cases hh : rlookup d.dev r with
  | none =>
      unfold NodupKeys at h ⊢
      rw [List.map_append]
      simp only [List.map_cons, List.map_nil]
      rw [List.nodup_append]
      refine ⟨h, List.nodup_singleton _, ?_⟩
      intro a ha hb
      simp only [List.mem_singleton] at hb
      subst hb
      exact (rlookup_eq_none_iff _ _).mp hh ha
  | some c =>
      unfold NodupKeys at h ⊢
      rw [keys_setCard]
      exact h

theorem rosterOK_updateOne {r : Roster} (h : RosterOK r) (d : Sample) :
    RosterOK (updateOne r d) := by
  unfold updateOne
  cases hh : rlookup d.dev r with
  | none =>
      intro kc hkc
      rcases List.mem_append.mp hkc with hmem | hmem
      · exact h kc hmem
      · simp only [List.mem_singleton] at hmem
        rw [hmem]
        exact cardOK_newCard
  | some c =>
      intro kc hkc
      rcases mem_setCard hkc with hmem | hmem
      · exact h kc hmem
      · rw [hmem]
        exact cardOK_resetCard (h _ (rlookup_mem hh))

theorem rlookup_foldl_not_mem (k : DevId) (arr : List Sample) :
    ∀ r : Roster, k ∉ arr.map Sample.dev →
      rlookup k (arr.foldl updateOne r) = rlookup k r := by
  induction arr with
  | nil => intro r _; rfl
  | cons d rest ih =>
      intro r h
      simp only [List.map_cons, List.mem_cons] at h
      push_neg at h
      rw [List.foldl_cons, ih _ h.2, rlookup_updateOne_ne _ _ h.1]

theorem rlookup_foldl_newCard (k : DevId) (arr : List Sample) :
    ∀ r : Roster, rlookup k r = some newCard →
      rlookup k (arr.foldl updateOne r) = some newCard := by
  induction arr with
  | nil => intro r h; exact h
  | cons d rest ih =>
      intro r h
      rw [List.foldl_cons]
      apply ih
      by_cases hk : k = d.dev
      · subst hk
        rw [rlookup_updateOne_self, h]
        rfl
      · rw [rlookup_updateOne_ne _ _ hk]
        exact h

theorem rlookup_foldl_mem (k : DevId) (arr : List Sample) :
    ∀ r : Roster, RosterOK r → k ∈ arr.map Sample.dev →
      rlookup k (arr.foldl updateOne r) = some newCard := by
  induction arr with
  | nil => intro r _ h; simp at h
  | cons d rest ih =>
      intro r hOK h
      rw [List.foldl_cons]
      by_cases hk : k = d.dev
      · subst hk
        apply rlookup_foldl_newCard
        rw [rlookup_updateOne_self]
        cases hh : rlookup d.dev r with
        | none => rfl
        | some c =>
            show some (resetCard c) = some newCard
            have hOKc := hOK _ (rlookup_mem hh)
            unfold resetCard
            split_ifs with hf
            · exact congrArg some (card_eq_newCard hf (hOKc hf).1 (hOKc hf).2)
            · rfl
      · simp only [List.map_cons, List.mem_cons] at h
        rcases h with h | h
        · exact absurd h hk
        · exact ih _ (rosterOK_updateOne hOK d) h

theorem nodupKeys_foldl (arr : List Sample) :
    ∀ r : Roster, NodupKeys r → NodupKeys (arr.foldl updateOne r) := by
  induction arr with
  | nil => intro r h; exact h
  | cons d rest ih =>
      intro r h
      rw [List.foldl_cons]
      exact ih _ (nodupKeys_updateOne h d)

theorem rosterOK_foldl (arr : List Sample) :
    ∀ r : Roster, RosterOK r → RosterOK (arr.foldl updateOne r) := by
  induction arr with
  | nil => intro r h; exact h
  | cons d rest ih =>
      intro r h
      rw [List.foldl_cons]
      exact ih _ (rosterOK_updateOne h d)

end Wemoov

namespace Wemoov

/-! ### Lemmas about the fade/destroy phase -/

theorem nodupKeys_cons {k : DevId} {c : Card} {r : Roster} :
    NodupKeys ((k, c) :: r) ↔ k ∉ r.map Prod.fst ∧ NodupKeys r := by
  simp [NodupKeys, List.nodup_cons]

theorem fadeStep_nil (nd : List DevId) (now fm : ℤ) :
    fadeStep nd now fm [] = ([], []) := rfl

theorem fadeStep_cons_mem {k : DevId} {nd : List DevId} (now fm : ℤ)
    (c : Card) (r : Roster) (h : k ∈ nd) :
    fadeStep nd now fm ((k, c) :: r) =
      ((k, c) :: (fadeStep nd now fm r).1, (fadeStep nd now fm r).2) := by
  simp only [fadeStep, if_pos h]

theorem fadeStep_cons_active {k : DevId} {nd : List DevId} (now fm : ℤ)
    {c : Card} (r : Roster) (h : k ∉ nd) (hcf : c.fadeStart = none) :
    fadeStep nd now fm ((k, c) :: r) =
      ((k, { c with fadeStart := some now }) :: (fadeStep nd now fm r).1,
        (fadeStep nd now fm r).2) := by
  simp only [fadeStep, if_neg h, hcf]

theorem fadeStep_cons_dead {k : DevId} {nd : List DevId} {now fm : ℤ}
    {c : Card} {t0 : ℤ} (r : Roster) (h : k ∉ nd) (hcf : c.fadeStart = some t0)
    (hel : fm ≤ now - t0) :
    fadeStep nd now fm ((k, c) :: r) =
      ((fadeStep nd now fm r).1, k :: (fadeStep nd now fm r).2) := by
  simp only [fadeStep, if_neg h, hcf, if_pos hel]

theorem fadeStep_cons_fading {k : DevId} {nd : List DevId} {now fm : ℤ}
    {c : Card} {t0 : ℤ} (r : Roster) (h : k ∉ nd) (hcf : c.fadeStart = some t0)
    (hel : ¬ fm ≤ now - t0) :
    fadeStep nd now fm ((k, c) :: r) =
      ((k, { c with
              opacity := 1 - min 1 (((now - t0 : ℤ) : ℚ) / ((fm : ℤ) : ℚ)),
              scaleT := some
                (1 - min 1 (((now - t0 : ℤ) : ℚ) / ((fm : ℤ) : ℚ)) * (2 / 100)) })
          :: (fadeStep nd now fm r).1,
        (fadeStep nd now fm r).2) := by
  simp only [fadeStep, if_neg h, hcf, if_neg hel]

theorem fadeStep_lookup_mem (k : DevId) (nd : List DevId) (now fm : ℤ) :
    ∀ r : Roster, k ∈ nd →
      rlookup k (fadeStep nd now fm r).1 = rlookup k r ∧
        k ∉ (fadeStep nd now fm r).2 := by
  intro r
  induction r with
  | nil => intro _; exact ⟨rfl, by simp [fadeStep_nil]⟩
  | cons kc rest ih =>
      intro hknd
      obtain ⟨k', c⟩ := kc
      by_cases hk' : k' ∈ nd
      · rw [fadeStep_cons_mem now fm c rest hk']
        dsimp only
        constructor
        · rw [rlookup, rlookup]
          by_cases hkk : k' = k
          · rw [if_pos hkk, if_pos hkk]
          · rw [if_neg hkk, if_neg hkk]
            exact (ih hknd).1
        · exact (ih hknd).2
      · have hkk : k' ≠ k := fun h => hk' (h ▸ hknd)
        cases hcf : c.fadeStart with
        | none =>
            rw [fadeStep_cons_active now fm rest hk' hcf]
            dsimp only
            refine ⟨?_, (ih hknd).2⟩
            rw [rlookup, rlookup, if_neg hkk, if_neg hkk]
            exact (ih hknd).1
        | some t0 =>
            by_cases hel : fm ≤ now - t0
            · rw [fadeStep_cons_dead rest hk' hcf hel]
              dsimp only
              constructor
              · rw [rlookup, if_neg hkk]
                exact (ih hknd).1
              · simp only [List.mem_cons]
                push_neg
                exact ⟨Ne.symm hkk, (ih hknd).2⟩
            · rw [fadeStep_cons_fading rest hk' hcf hel]
              dsimp only
              refine ⟨?_, (ih hknd).2⟩
              rw [rlookup, rlookup, if_neg hkk, if_neg hkk]
              exact (ih hknd).1

theorem fadeStep_lookup_none (k : DevId) (nd : List DevId) (now fm : ℤ) :
    ∀ r : Roster, rlookup k r = none →
      rlookup k (fadeStep nd now fm r).1 = none ∧
        k ∉ (fadeStep nd now fm r).2 := by
  intro r
  induction r with
  | nil => intro _; exact ⟨rfl, by simp [fadeStep_nil]⟩
  | cons kc rest ih =>
      intro hnone
      obtain ⟨k', c⟩ := kc
      rw [rlookup] at hnone
      by_cases hkk : k' = k
      · rw [if_pos hkk] at hnone
        exact absurd hnone (by simp)
      · rw [if_neg hkk] at hnone
        by_cases hk' : k' ∈ nd
        · rw [fadeStep_cons_mem now fm c rest hk']
          dsimp only
          refine ⟨?_, (ih hnone).2⟩
          rw [rlookup, if_neg hkk]
          exact (ih hnone).1
        · cases hcf : c.fadeStart with
          | none =>
              rw [fadeStep_cons_active now fm rest hk' hcf]
              dsimp only
              refine ⟨?_, (ih hnone).2⟩
              rw [rlookup, if_neg hkk]
              exact (ih hnone).1
          | some t0 =>
              by_cases hel : fm ≤ now - t0
              · rw [fadeStep_cons_dead rest hk' hcf hel]
                dsimp only
                refine ⟨(ih hnone).1, ?_⟩
                simp only [List.mem_cons]
                push_neg
                exact ⟨Ne.symm hkk, (ih hnone).2⟩
              · rw [fadeStep_cons_fading rest hk' hcf hel]
                dsimp only
                refine ⟨?_, (ih hnone).2⟩
                rw [rlookup, if_neg hkk]
                exact (ih hnone).1

end Wemoov

namespace Wemoov

theorem fadeStep_head_ne (k : DevId) (nd : List DevId) (now fm : ℤ)
    (k' : DevId) (c' : Card) (rest : Roster) (hkk : k' ≠ k) :
    rlookup k (fadeStep nd now fm ((k', c') :: rest)).1
        = rlookup k (fadeStep nd now fm rest).1 ∧
      (k ∈ (fadeStep nd now fm ((k', c') :: rest)).2 ↔
        k ∈ (fadeStep nd now fm rest).2) := by
  by_cases hk' : k' ∈ nd
  · rw [fadeStep_cons_mem now fm c' rest hk']
    dsimp only
    exact ⟨by rw [rlookup, if_neg hkk], Iff.rfl⟩
  · cases hcf : c'.fadeStart with
    | none =>
        rw [fadeStep_cons_active now fm rest hk' hcf]
        dsimp only
        exact ⟨by rw [rlookup, if_neg hkk], Iff.rfl⟩
    | some t0 =>
        by_cases hel : fm ≤ now - t0
        · rw [fadeStep_cons_dead rest hk' hcf hel]
          dsimp only
          refine ⟨rfl, ?_⟩
          simp only [List.mem_cons]
          constructor
          · rintro (h | h)
            · exact absurd h.symm hkk
            · exact h
          · exact Or.inr
        · rw [fadeStep_cons_fading rest hk' hcf hel]
          dsimp only
          exact ⟨by rw [rlookup, if_neg hkk], Iff.rfl⟩

theorem fadeStep_lookup_absent (k : DevId) (nd : List DevId) (now fm : ℤ) :
    ∀ (r : Roster) (c : Card), NodupKeys r → k ∉ nd → rlookup k r = some c →
      (c.fadeStart = none →
        rlookup k (fadeStep nd now fm r).1 = some { c with fadeStart := some now } ∧
          k ∉ (fadeStep nd now fm r).2) ∧
      (∀ t0 : ℤ, c.fadeStart = some t0 → fm ≤ now - t0 →
        rlookup k (fadeStep nd now fm r).1 = none ∧
          k ∈ (fadeStep nd now fm r).2) ∧
      (∀ t0 : ℤ, c.fadeStart = some t0 → ¬ fm ≤ now - t0 →
        rlookup k (fadeStep nd now fm r).1 = some
            { c with
              opacity := 1 - min 1 (((now - t0 : ℤ) : ℚ) / ((fm : ℤ) : ℚ)),
              scaleT := some
                (1 - min 1 (((now - t0 : ℤ) : ℚ) / ((fm : ℤ) : ℚ)) * (2 / 100)) } ∧
          k ∉ (fadeStep nd now fm r).2) := by
  intro r
  induction r with
  | nil => intro c _ _ h; simp [rlookup] at h
  | cons kc rest ih =>
      intro c hnd hknd hlk
      obtain ⟨k', c'⟩ := kc
      rw [nodupKeys_cons] at hnd
      by_cases hkk : k' = k
      · subst hkk
        rw [rlookup, if_pos rfl] at hlk
        injection hlk with hlk
        subst hlk
        have hrest : rlookup k' rest = none :=
          (rlookup_eq_none_iff _ _).mpr hnd.1
        have hnone := fadeStep_lookup_none k' nd now fm rest hrest
        refine ⟨?_, ?_, ?_⟩
        · intro hcf
          rw [fadeStep_cons_active now fm rest hknd hcf]
          dsimp only
          rw [rlookup, if_pos rfl]
          exact ⟨rfl, hnone.2⟩
        · intro t0 hcf hel
          rw [fadeStep_cons_dead rest hknd hcf hel]
          dsimp only
          exact ⟨hnone.1, List.mem_cons_self _ _⟩
        · intro t0 hcf hel
          rw [fadeStep_cons_fading rest hknd hcf hel]
          dsimp only
          rw [rlookup, if_pos rfl]
          exact ⟨rfl, hnone.2⟩
      · rw [rlookup, if_neg hkk] at hlk
        have hhead := fadeStep_head_ne k nd now fm k' c' rest hkk
        have ihr := ih c hnd.2 hknd hlk
        refine ⟨?_, ?_, ?_⟩
        · intro hcf
          rw [hhead.1, hhead.2]
          exact (ihr.1 hcf)
        · intro t0 hcf hel
          rw [hhead.1, hhead.2]
          exact ihr.2.1 t0 hcf hel
        · intro t0 hcf hel
          rw [hhead.1, hhead.2]
          exact ihr.2.2 t0 hcf hel

theorem rlookup_some_mem_keys {k : DevId} {c : Card} {r : Roster}
    (h : rlookup k r = some c) : k ∈ r.map Prod.fst := by
  by_contra hnot
  rw [← rlookup_eq_none_iff] at hnot
  rw [h] at hnot
  exact Option.noConfusion hnot

theorem fadeStep_destroyed (k : DevId) (nd : List DevId) (now fm : ℤ) :
    ∀ r : Roster, NodupKeys r → k ∈ (fadeStep nd now fm r).2 →
      k ∉ nd ∧ ∃ (c : Card) (t0 : ℤ),
        rlookup k r = some c ∧ c.fadeStart = some t0 ∧ fm ≤ now - t0 := by
  intro r
  induction r with
  | nil => intro _ h; simp [fadeStep_nil] at h
  | cons kc rest ih =>
      intro hnd hmem
      obtain ⟨k', c'⟩ := kc
      rw [nodupKeys_cons] at hnd
      have hne_of_rest : k ∈ (fadeStep nd now fm rest).2 → k' ≠ k := by
        intro hr hkk
        subst hkk
        obtain ⟨_, c, t0, hl, _, _⟩ := ih hnd.2 hr
        exact hnd.1 (rlookup_some_mem_keys hl)
      by_cases hk' : k' ∈ nd
      · rw [fadeStep_cons_mem now fm c' rest hk'] at hmem
        dsimp only at hmem
        have hkk := hne_of_rest hmem
        obtain ⟨h1, c, t0, hl, h2, h3⟩ := ih hnd.2 hmem
        exact ⟨h1, c, t0, by rw [rlookup, if_neg hkk]; exact hl, h2, h3⟩
      · cases hcf : c'.fadeStart with
        | none =>
            rw [fadeStep_cons_active now fm rest hk' hcf] at hmem
            dsimp only at hmem
            have hkk := hne_of_rest hmem
            obtain ⟨h1, c, t0, hl, h2, h3⟩ := ih hnd.2 hmem
            exact ⟨h1, c, t0, by rw [rlookup, if_neg hkk]; exact hl, h2, h3⟩
        | some t0 =>
            by_cases hel : fm ≤ now - t0
            · rw [fadeStep_cons_dead rest hk' hcf hel] at hmem
              dsimp only at hmem
              rcases List.mem_cons.mp hmem with h | h
              · subst h
                exact ⟨hk', c', t0, by rw [rlookup, if_pos rfl], hcf, hel⟩
              · have hkk := hne_of_rest h
                obtain ⟨h1, c, t1, hl, h2, h3⟩ := ih hnd.2 h
                exact ⟨h1, c, t1, by rw [rlookup, if_neg hkk]; exact hl, h2, h3⟩
            · rw [fadeStep_cons_fading rest hk' hcf hel] at hmem
              dsimp only at hmem
              have hkk := hne_of_rest hmem
              obtain ⟨h1, c, t1, hl, h2, h3⟩ := ih hnd.2 hmem
              exact ⟨h1, c, t1, by rw [rlookup, if_neg hkk]; exact hl, h2, h3⟩

theorem fadeStep_keys_sublist (nd : List DevId) (now fm : ℤ) :
    ∀ r : Roster,
      ((fadeStep nd now fm r).1.map Prod.fst).Sublist (r.map Prod.fst) := by
  intro r
  induction r with
  | nil => simp [fadeStep_nil]
  | cons kc rest ih =>
      obtain ⟨k', c'⟩ := kc
      by_cases hk' : k' ∈ nd
      · rw [fadeStep_cons_mem now fm c' rest hk']
        dsimp only [List.map_cons]
        exact ih.cons₂ _
      · cases hcf : c'.fadeStart with
        | none =>
            rw [fadeStep_cons_active now fm rest hk' hcf]
            dsimp only [List.map_cons]
            exact ih.cons₂ _
        | some t0 =>
            by_cases hel : fm ≤ now - t0
            · rw [fadeStep_cons_dead rest hk' hcf hel]
              dsimp only [List.map_cons]
              exact ih.cons _
            · rw [fadeStep_cons_fading rest hk' hcf hel]
              dsimp only [List.map_cons]
              exact ih.cons₂ _

theorem fadeStep_rosterOK (nd : List DevId) (now fm : ℤ) :
    ∀ r : Roster, RosterOK r → RosterOK (fadeStep nd now fm r).1 := by
  intro r
  induction r with
  | nil => intro h; simp [fadeStep_nil, RosterOK]
  | cons kc rest ih =>
      intro hOK
      have hOKrest : RosterOK rest := fun kc hm => hOK kc (List.mem_cons_of_mem _ hm)
      have hOKhead : CardOK kc.2 := hOK kc (List.mem_cons_self _ _)
      obtain ⟨k', c'⟩ := kc
      by_cases hk' : k' ∈ nd
      · rw [fadeStep_cons_mem now fm c' rest hk']
        intro kc2 hm
        rcases List.mem_cons.mp hm with h | h
        · rw [h]; exact hOKhead
        · exact ih hOKrest kc2 h
      · cases hcf : c'.fadeStart with
        | none =>
            rw [fadeStep_cons_active now fm rest hk' hcf]
            intro kc2 hm
            rcases List.mem_cons.mp hm with h | h
            · rw [h]
              intro hcontra
              simp at hcontra
            · exact ih hOKrest kc2 h
        | some t0 =>
            by_cases hel : fm ≤ now - t0
            · rw [fadeStep_cons_dead rest hk' hcf hel]
              exact ih hOKrest
            · rw [fadeStep_cons_fading rest hk' hcf hel]
              intro kc2 hm
              rcases List.mem_cons.mp hm with h | h
              · rw [h]
                intro hcontra
                dsimp only at hcontra
                rw [hcf] at hcontra
                exact Option.noConfusion hcontra
              · exact ih hOKrest kc2 h

end Wemoov

namespace Wemoov

/-! ### Reconcile-level lemmas -/

theorem reconcile_eq (b : Option (List Sample)) (now fm : ℤ) (r : Roster) :
    reconcile b now fm r =
      fadeStep (batchIds b) now fm ((b.getD []).foldl updateOne r) := rfl

theorem absentFrom_def {d : DevId} {b : Option (List Sample)}
    (h : AbsentFrom d b) : d ∉ (b.getD []).map Sample.dev := h

theorem reconcile_lookup_mem (d : DevId) (b : Option (List Sample))
    (now fm : ℤ) (r : Roster) (hOK : RosterOK r) (h : d ∈ batchIds b) :
    rlookup d (reconcile b now fm r).1 = some newCard ∧
      d ∉ (reconcile b now fm r).2 := by
  rw [reconcile_eq]
  have h1 : rlookup d ((b.getD []).foldl updateOne r) = some newCard :=
    rlookup_foldl_mem d _ r hOK h
  have h2 := fadeStep_lookup_mem d (batchIds b) now fm
    ((b.getD []).foldl updateOne r) h
  exact ⟨h2.1.trans h1, h2.2⟩

theorem reconcile_lookup_none (d : DevId) (b : Option (List Sample))
    (now fm : ℤ) (r : Roster) (habs : AbsentFrom d b)
    (hnone : rlookup d r = none) :
    rlookup d (reconcile b now fm r).1 = none ∧
      d ∉ (reconcile b now fm r).2 := by
  rw [reconcile_eq]
  have h1 : rlookup d ((b.getD []).foldl updateOne r) = none := by
    rw [rlookup_foldl_not_mem d _ r (absentFrom_def habs)]
    exact hnone
  exact fadeStep_lookup_none d (batchIds b) now fm _ h1

theorem reconcile_absent_cases (d : DevId) (b : Option (List Sample))
    (now fm : ℤ) (r : Roster) (c : Card) (hnd : NodupKeys r)
    (habs : AbsentFrom d b) (hlk : rlookup d r = some c) :
    (c.fadeStart = none →
      rlookup d (reconcile b now fm r).1 = some { c with fadeStart := some now } ∧
        d ∉ (reconcile b now fm r).2) ∧
    (∀ t0 : ℤ, c.fadeStart = some t0 → fm ≤ now - t0 →
      rlookup d (reconcile b now fm r).1 = none ∧
        d ∈ (reconcile b now fm r).2) ∧
    (∀ t0 : ℤ, c.fadeStart = some t0 → ¬ fm ≤ now - t0 →
      rlookup d (reconcile b now fm r).1 = some
          { c with
            opacity := 1 - min 1 (((now - t0 : ℤ) : ℚ) / ((fm : ℤ) : ℚ)),
            scaleT := some
              (1 - min 1 (((now - t0 : ℤ) : ℚ) / ((fm : ℤ) : ℚ)) * (2 / 100)) } ∧
        d ∉ (reconcile b now fm r).2) := by
  rw [reconcile_eq]
  have h1 : rlookup d ((b.getD []).foldl updateOne r) = some c := by
    rw [rlookup_foldl_not_mem d _ r (absentFrom_def habs)]
    exact hlk
  exact fadeStep_lookup_absent d (batchIds b) now fm _ c
    (nodupKeys_foldl _ r hnd) (absentFrom_def habs) h1

theorem reconcile_destroyed (d : DevId) (b : Option (List Sample))
    (now fm : ℤ) (r : Roster) (hnd : NodupKeys r)
    (h : d ∈ (reconcile b now fm r).2) :
    AbsentFrom d b ∧ ∃ (c : Card) (t0 : ℤ),
      rlookup d r = some c ∧ c.fadeStart = some t0 ∧ fm ≤ now - t0 := by
  rw [reconcile_eq] at h
  obtain ⟨h1, c, t0, hl, h2, h3⟩ := fadeStep_destroyed d (batchIds b) now fm
    ((b.getD []).foldl updateOne r) (nodupKeys_foldl _ r hnd) h
  rw [rlookup_foldl_not_mem d _ r h1] at hl
  exact ⟨h1, c, t0, hl, h2, h3⟩

theorem reconcile_GInv (b : Option (List Sample)) (now fm : ℤ) (r : Roster)
    (h : GInv r) : GInv (reconcile b now fm r).1 := by
  rw [reconcile_eq]
  constructor
  · exact ((fadeStep_keys_sublist (batchIds b) now fm _).nodup
      (nodupKeys_foldl _ r h.1))
  · exact fadeStep_rosterOK _ now fm _ (rosterOK_foldl _ r h.2)

/-! ### Lemmas about sequences of reconciliations -/

theorem runR_nil (fm : ℤ) (r : Roster) : runR fm r [] = r := rfl

theorem runR_cons (fm : ℤ) (r : Roster) (s : Step) (steps : List Step) :
    runR fm r (s :: steps) = runR fm (stepR fm r s) steps := rfl

theorem runR_append_singleton (fm : ℤ) (r : Roster) (init : List Step)
    (s : Step) :
    runR fm r (init ++ [s]) = stepR fm (runR fm r init) s := by
  unfold runR
  rw [List.foldl_append, List.foldl_cons, List.foldl_nil]

theorem runR_GInv (fm : ℤ) (steps : List Step) :
    ∀ r : Roster, GInv r → GInv (runR fm r steps) := by
  induction steps with
  | nil => intro r h; exact h
  | cons s rest ih =>
      intro r h
      rw [runR_cons]
      exact ih _ (reconcile_GInv s.1 s.2 fm r h)

theorem GInv_nil : GInv ([] : Roster) := ⟨List.nodup_nil, fun _ h => absurd h (List.not_mem_nil _)⟩

end Wemoov

namespace Wemoov

theorem stepR_eq (fm : ℤ) (r : Roster) (b : Option (List Sample)) (t : ℤ) :
    stepR fm r (b, t) = (reconcile b t fm r).1 := rfl

theorem destroyedDuring_nil (fm : ℤ) (r : Roster) :
    destroyedDuring fm r [] = [] := rfl

theorem destroyedDuring_cons (fm : ℤ) (r : Roster) (s : Step)
    (rest : List Step) :
    destroyedDuring fm r (s :: rest) =
      (reconcile s.1 s.2 fm r).2 :: destroyedDuring fm (stepR fm r s) rest := rfl

/-- A card seen fading with stamp `t0` traces back to a reconciliation at
time `t0` that first observed the device absent, with the device absent from
every batch since. -/
theorem runR_fade_origin (fm : ℤ) (d : DevId) (steps : List Step) :
    ∀ r0 : Roster, GInv r0 → rlookup d r0 = none →
      ∀ (c : Card) (t0 : ℤ),
        rlookup d (runR fm r0 steps) = some c → c.fadeStart = some t0 →
        ∃ (pre : List Step) (b1 : Option (List Sample)) (rest : List Step),
          steps = pre ++ (b1, t0) :: rest ∧ AbsentFrom d b1 ∧
            ∀ s ∈ rest, AbsentFrom d s.1 := by
  induction steps using List.reverseRecOn with
  | nil =>
      intro r0 _ hnone c t0 hlk _
      rw [runR_nil, hnone] at hlk
      exact Option.noConfusion hlk
  | append_singleton init s ih =>
      intro r0 hG hnone c t0 hlk hcf
      obtain ⟨b, t⟩ := s
      rw [runR_append_singleton, stepR_eq] at hlk
      have hGR : GInv (runR fm r0 init) := runR_GInv fm init r0 hG
      by_cases hmem : d ∈ batchIds b
      · have h1 := (reconcile_lookup_mem d b t fm _ hGR.2 hmem).1
        rw [h1] at hlk
        injection hlk with hlk
        rw [← hlk] at hcf
        simp [newCard] at hcf
      · have habs : AbsentFrom d b := hmem
        cases hR : rlookup d (runR fm r0 init) with
        | none =>
            have h1 := (reconcile_lookup_none d b t fm _ habs hR).1
            rw [h1] at hlk
            exact Option.noConfusion hlk
        | some c' =>
            have hcases := reconcile_absent_cases d b t fm _ c' hGR.1 habs hR
            cases hcf' : c'.fadeStart with
            | none =>
                have h2 := (hcases.1 hcf').1
                rw [h2] at hlk
                injection hlk with hlk
                rw [← hlk] at hcf
                dsimp only at hcf
                injection hcf with hcf
                subst hcf
                exact ⟨init, b, [], rfl, habs,
                  fun s hs => absurd hs (List.not_mem_nil _)⟩
            | some t0' =>
                by_cases hel : fm ≤ t - t0'
                · have h2 := (hcases.2.1 t0' hcf' hel).1
                  rw [h2] at hlk
                  exact Option.noConfusion hlk
                · have h2 := (hcases.2.2 t0' hcf' hel).1
                  rw [h2] at hlk
                  injection hlk with hlk
                  rw [← hlk] at hcf
                  dsimp only at hcf
                  rw [hcf'] at hcf
                  injection hcf with hcf
                  subst hcf
                  obtain ⟨pre, b1, rest, hsteps, hb1, hrest⟩ :=
                    ih r0 hG hnone c' t0' hR hcf'
                  refine ⟨pre, b1, rest ++ [(b, t)], ?_, hb1, ?_⟩
                  · rw [hsteps]
                    simp
                  · intro s hs
                    rcases List.mem_append.mp hs with h | h
                    · exact hrest s h
                    · simp only [List.mem_singleton] at h
                      rw [h]
                      exact habs

/-- A device that is not in the roster and stays absent is never destroyed. -/
theorem destroyedDuring_count_zero (fm : ℤ) (d : DevId) (w : List Step) :
    ∀ r : Roster, rlookup d r = none → (∀ s ∈ w, AbsentFrom d s.1) →
      (destroyedDuring fm r w).countP (fun ds => decide (d ∈ ds)) = 0 := by
  induction w with
  | nil => intro r _ _; rfl
  | cons s rest ih =>
      intro r hnone habs
      obtain ⟨b, t⟩ := s
      have habsb : AbsentFrom d b := habs (b, t) (List.mem_cons_self _ _)
      have h := reconcile_lookup_none d b t fm r habsb hnone
      have hnone' : rlookup d (stepR fm r (b, t)) = none := by
        rw [stepR_eq]
        exact h.1
      rw [destroyedDuring_cons, List.countP_cons,
        ih _ hnone' (fun s hs => habs s (List.mem_cons_of_mem _ hs))]
      simp [h.2]

/-- A fading card that stays absent and whose fade deadline is reached within
the window is destroyed exactly once over the window. -/
theorem destroyedDuring_count_one (fm : ℤ) (d : DevId) (w : List Step) :
    ∀ (r : Roster) (c : Card) (t0 : ℤ), GInv r →
      rlookup d r = some c → c.fadeStart = some t0 →
      (∀ s ∈ w, AbsentFrom d s.1) →
      (∃ s ∈ w, fm ≤ s.2 - t0) →
      (destroyedDuring fm r w).countP (fun ds => decide (d ∈ ds)) = 1 := by
  induction w with
  | nil =>
      intro r c t0 _ _ _ _ hex
      obtain ⟨s, hs, _⟩ := hex
      exact absurd hs (List.not_mem_nil _)
  | cons s rest ih =>
      intro r c t0 hG hlk hcf habs hex
      obtain ⟨b, t⟩ := s
      have habsb : AbsentFrom d b := habs (b, t) (List.mem_cons_self _ _)
      have hcases := reconcile_absent_cases d b t fm r c hG.1 habsb hlk
      have habsrest : ∀ s ∈ rest, AbsentFrom d s.1 :=
        fun s hs => habs s (List.mem_cons_of_mem _ hs)
      by_cases hel : fm ≤ t - t0
      · have h2 := hcases.2.1 t0 hcf hel
        have hnone' : rlookup d (stepR fm r (b, t)) = none := by
          rw [stepR_eq]
          exact h2.1
        rw [destroyedDuring_cons, List.countP_cons,
          destroyedDuring_count_zero fm d rest _ hnone' habsrest]
        simp [h2.2]
      · have h2 := hcases.2.2 t0 hcf hel
        have hlk' : rlookup d (stepR fm r (b, t)) = some
            { c with
              opacity := 1 - min 1 (((t - t0 : ℤ) : ℚ) / ((fm : ℤ) : ℚ)),
              scaleT := some
                (1 - min 1 (((t - t0 : ℤ) : ℚ) / ((fm : ℤ) : ℚ)) * (2 / 100)) } := by
          rw [stepR_eq]
          exact h2.1
        have hex' : ∃ s ∈ rest, fm ≤ s.2 - t0 := by
          obtain ⟨s', hs', hel'⟩ := hex
          rcases List.mem_cons.mp hs' with h | h
          · rw [h] at hel'
            exact absurd hel' hel
          · exact ⟨s', h, hel'⟩
        have hG' : GInv (stepR fm r (b, t)) := reconcile_GInv b t fm r hG
        rw [destroyedDuring_cons, List.countP_cons,
          ih _ _ t0 hG' hlk' (by dsimp only; exact hcf) habsrest hex']
        simp [h2.2]

end Wemoov

namespace Wemoov

/-- C2: over any sequence of reconciliations starting from the empty roster:
(1) a card is destroyed at a call only if its device has been absent from
every batch since some earlier call whose timestamp is at least
`fadeDurationMs` before the destroying call — sustained wall-clock absence,
however many reconciliations occurred in the window; (2) a device present in
the incoming batch is never destroyed by that call and its card ends the
call Active, fully opaque, with the transform reset (so a device that
reappears mid-fade is restored); (3) a card Active at the start of an
absence window is destroyed exactly once over the window as soon as the
window contains a call at least `fadeDurationMs` after the absence was first
observed. -/
theorem reconcile_fade_lifecycle (fm : ℤ) :
    (∀ (pre : List Step) (b : Option (List Sample)) (t : ℤ) (d : DevId),
      d ∈ (reconcile b t fm (runR fm [] pre)).2 →
      ∃ (pre1 : List Step) (b1 : Option (List Sample)) (t1 : ℤ)
          (mid : List Step),
        pre = pre1 ++ (b1, t1) :: mid ∧ AbsentFrom d b1 ∧
          (∀ s ∈ mid, AbsentFrom d s.1) ∧ AbsentFrom d b ∧ fm ≤ t - t1) ∧
    (∀ (pre : List Step) (b : Option (List Sample)) (t : ℤ) (d : DevId),
      d ∈ batchIds b →
      d ∉ (reconcile b t fm (runR fm [] pre)).2 ∧
        rlookup d (reconcile b t fm (runR fm [] pre)).1 = some newCard) ∧
    (∀ (pre : List Step) (b : Option (List Sample)) (t : ℤ) (mid : List Step)
        (d : DevId) (c : Card),
      rlookup d (runR fm [] pre) = some c → c.fadeStart = none →
      AbsentFrom d b → (∀ s ∈ mid, AbsentFrom d s.1) →
      (∃ s ∈ mid, fm ≤ s.2 - t) →
      (destroyedDuring fm (runR fm [] pre) ((b, t) :: mid)).countP
        (fun ds => decide (d ∈ ds)) = 1) := by
  refine ⟨?_, ?_, ?_⟩
  · intro pre b t d hd
    have hG : GInv (runR fm [] pre) := runR_GInv fm pre [] GInv_nil
    obtain ⟨habs, c, t0, hlk, hcf, hel⟩ :=
      reconcile_destroyed d b t fm _ hG.1 hd
    obtain ⟨pre1, b1, rest, hsteps, hb1, hrest⟩ :=
      runR_fade_origin fm d pre [] GInv_nil rfl c t0 hlk hcf
    exact ⟨pre1, b1, t0, rest, hsteps, hb1, hrest, habs, hel⟩
  · intro pre b t d hd
    have hG : GInv (runR fm [] pre) := runR_GInv fm pre [] GInv_nil
    have h := reconcile_lookup_mem d b t fm _ hG.2 hd
    exact ⟨h.2, h.1⟩
  · intro pre b t mid d c hlk hcf habs habsmid hex
    have hG : GInv (runR fm [] pre) := runR_GInv fm pre [] GInv_nil
    have hcases := reconcile_absent_cases d b t fm _ c hG.1 habs hlk
    have h1 := hcases.1 hcf
    rw [destroyedDuring_cons, List.countP_cons,
      destroyedDuring_count_one fm d mid (stepR fm (runR fm [] pre) (b, t))
        { c with fadeStart := some t } t (reconcile_GInv b t fm _ hG)
        (by rw [stepR_eq]; exact h1.1) rfl habsmid hex]
    simp [h1.2]

/-- C2 witness: device 1 appears at t=0, is absent at t=1000 (fade starts),
and a reconciliation at t=61000 (60000 ms later) destroys it; the sustained
absence decomposition produced by the theorem is witnessed concretely. -/
theorem reconcile_fade_lifecycle_witness :
    (some 1 : DevId) ∈ (reconcile none 61000 60000
        (runR 60000 [] [(some [⟨some 1⟩], 0), (some [], 1000)])).2 ∧
    ∃ (pre1 : List Step) (b1 : Option (List Sample)) (t1 : ℤ)
        (mid : List Step),
      [((some [⟨some 1⟩] : Option (List Sample)), (0 : ℤ)),
          (some [], 1000)] = pre1 ++ (b1, t1) :: mid ∧
        AbsentFrom (some 1) b1 ∧ (∀ s ∈ mid, AbsentFrom (some 1) s.1) ∧
        AbsentFrom (some 1) none ∧ (60000 : ℤ) ≤ 61000 - t1 := by
  have hd : (some 1 : DevId) ∈ (reconcile none 61000 60000
      (runR 60000 [] [(some [⟨some 1⟩], 0), (some [], 1000)])).2 := by decide
  exact ⟨hd, (reconcile_fade_lifecycle 60000).1 _ none 61000 _ hd⟩

/-- C6 counterexample: starting from an empty roster, a batch containing a
single entry with no id is not skipped — it creates (and retains) a card
keyed by the missing id (`undefined`), whereas skipping it would leave the
roster identical to the empty-batch result. -/
theorem reconcile_idless_entry_not_skipped :
    (reconcile (some [⟨none⟩]) 0 60000 []).1 = [(none, newCard)] ∧
    (reconcile (some []) 0 60000 []).1 = [] ∧
    ([(none, newCard)] : Roster) ≠ [] :=
  ⟨rfl, rfl, List.cons_ne_nil _ _⟩

/-- C6 amended: a wholly malformed batch (not an array) is treated exactly
like an empty batch — it starts the fade of every Active card, destroys a
card whose fade deadline has passed, and never raises a hard failure (the
model is a total function); but an individual entry that is missing its id
is not skipped: it is processed like any other entry under the missing-id
(`undefined`) key, creating or refreshing a card stored under that key. -/
theorem reconcile_malformed_batch (now fm : ℤ) :
    (∀ r : Roster, reconcile none now fm r = reconcile (some []) now fm r) ∧
    (∀ (r : Roster) (d : DevId) (c : Card), NodupKeys r →
      rlookup d r = some c →
      (c.fadeStart = none →
        rlookup d (reconcile none now fm r).1
            = some { c with fadeStart := some now } ∧
          d ∉ (reconcile none now fm r).2) ∧
      (∀ t0 : ℤ, c.fadeStart = some t0 → fm ≤ now - t0 →
        d ∈ (reconcile none now fm r).2)) ∧
    (∀ (r : Roster) (arr : List Sample), RosterOK r → Sample.mk none ∈ arr →
      rlookup none (reconcile (some arr) now fm r).1 = some newCard ∧
        none ∉ (reconcile (some arr) now fm r).2) := by
  refine ⟨?_, ?_, ?_⟩
  · intro r
    rfl
  · intro r d c hnd hlk
    have habs : AbsentFrom d none := List.not_mem_nil d
    have hcases := reconcile_absent_cases d none now fm r c hnd habs hlk
    exact ⟨fun hcf => hcases.1 hcf,
      fun t0 hcf hel => (hcases.2.1 t0 hcf hel).2⟩
  · intro r arr hOK hmem
    have h : (none : DevId) ∈ batchIds (some arr) :=
      List.mem_map.mpr ⟨⟨none⟩, hmem, rfl⟩
    have := reconcile_lookup_mem none (some arr) now fm r hOK h
    exact ⟨this.1, this.2⟩

/-- C6 witness: a malformed (`none`) batch starts the fade of an Active card,
and a batch with an id-less entry creates a card under the `undefined` key. -/
theorem reconcile_malformed_batch_witness :
    rlookup (some 5) (reconcile none 7 60000 [(some 5, newCard)]).1
        = some { newCard with fadeStart := some 7 } ∧
    rlookup none (reconcile (some [⟨none⟩]) 7 60000 []).1 = some newCard := by
  have h := reconcile_malformed_batch 7 60000
  constructor
  · exact ((h.2.1 [(some 5, newCard)] (some 5) newCard
      (by unfold NodupKeys; decide) rfl).1 rfl).1
  · exact (h.2.2 [] [⟨none⟩] (fun kc hm => absurd hm (List.not_mem_nil _))
      (List.mem_cons_self _ _)).1

end Wemoov
